import Mathlib

/-! # Synthesize-Instructions: the IA-32 instruction emitter of `src/main.cpp`

A shallow embedding of the encoder (`MakeModRmByte`, `ExtractByte`,
`emit_x86_instruction::Mov`, `emit_x86_instruction::Int`) and of `main`.

Conventions of the embedding:
* `u8` values are natural numbers below `256`; a conversion to `u8` is `% 256`;
* `i32` values are integers `v` with `-2^31 ≤ v < 2^31` (`IsI32 v`);
* `std::vector<u8>` is `List Nat`, `push_back` appends at the end;
* integer promotion: the operands of `<<`, `|`, `>>`, `&` are promoted to `int`
  before the operation, so the operations are computed without truncation
  and only the conversion of the result to `u8` reduces modulo `256`;
* `>>` on a negative `int` is the arithmetic shift (floor division by a
  power of two), as `Int.shiftRight` computes it;
* `&` on `int`s acts on the 32-bit two's-complement bit patterns.
-/

/-! ## Machine integers -/

/-- Membership in the range of `u8`. -/
def IsU8 (n : Nat) : Prop := n < 256

/-- Membership in the range of `i32`. -/
def IsI32 (v : Int) : Prop := -2147483648 ≤ v ∧ v < 2147483648

instance (n : Nat) : Decidable (IsU8 n) := by unfold IsU8; infer_instance

instance (v : Int) : Decidable (IsI32 v) := by unfold IsI32; infer_instance

/-- Conversion of a non-negative `int` to `u8` (`static_cast<u8>`, or the
implicit conversion of a returned `int` to the return type `u8`). -/
def toU8 (n : Nat) : Nat := n % 256

/-- The 32-bit two's-complement bit pattern of an `int`, read as a natural
number below `2^32`. -/
def bits32 (v : Int) : Nat := (v % 4294967296).toNat

/-- The operator `&` between an `int` and a non-negative `int` constant:
the bitwise and of the two's-complement bit patterns. The result is
non-negative because the sign bit of the constant is clear. -/
def andInt (v : Int) (mask : Nat) : Nat := bits32 v &&& mask

/-- Conversion of an unsigned value to `i32` (`static_cast<i32>`): the value
is reduced modulo `2^32` and the 32-bit pattern is read as a signed integer. -/
def toI32 (n : Nat) : Int :=
  if n % 4294967296 < 2147483648 then ((n % 4294967296 : Nat) : Int)
  else ((n % 4294967296 : Nat) : Int) - 4294967296

/-! ## The enumerations -/

/-- The `enum class Register : u8`. -/
inductive Register where
  | Eax
  | Ebx
  | Ecx
  | Edx
  deriving DecidableEq, Repr

/-- The `enum class Mode : u8`. -/
inductive Mode where
  | Address
  | AddressPlus8bitDisplacement
  | AddressPlus32bitDisplacement
  | Register
  deriving DecidableEq, Repr

/-- The enumerator value of a `Register`: the 3-bit sequence used when
addressing the register. -/
def Register.value : Register → Nat
  | .Eax => 0b000
  | .Ebx => 0b011
  | .Ecx => 0b001
  | .Edx => 0b010

/-- The enumerator value of a `Mode`: the 2-bit sequence used when selecting
the addressing mode. -/
def Mode.value : Mode → Nat
  | .Address => 0b00
  | .AddressPlus8bitDisplacement => 0b01
  | .AddressPlus32bitDisplacement => 0b10
  | .Register => 0b11

/-- An enumeration with underlying type `u8`. -/
class U8Enum (α : Type) where
  /-- The declared enumerator value. -/
  underlying : α → Nat

instance : U8Enum Register := ⟨Register.value⟩

instance : U8Enum Mode := ⟨Mode.value⟩

/-- The template `EnumToByte`: `static_cast<u8>(enum_value)`. -/
def EnumToByte {α : Type} [U8Enum α] (enum_value : α) : Nat :=
  toU8 (U8Enum.underlying enum_value)

/-! ## The encoder -/

/-- The function `MakeModRmByte`:
`return (EnumToByte(mode) << 6) | (reg_or_opcode << 3) | reg_or_memory;`
computed on promoted `int`s and converted to `u8` on return. -/
def MakeModRmByte (mode : Mode) (reg_or_opcode reg_or_memory : Nat) : Nat :=
  toU8 ((EnumToByte mode <<< 6) ||| (reg_or_opcode <<< 3) ||| reg_or_memory)

/-- The function `ExtractByte`:
`return (value >> (byte_index * 8)) & 0xFF;`
The product `byte_index * 8` is a `u32` product (modulo `2^32`); the shift is
the arithmetic shift of the `int` `value`; the result is converted to `u8`. -/
def ExtractByte (value : Int) (byte_index : Nat) : Nat :=
  toU8 (andInt (value >>> (byte_index * 8 % 4294967296)) 0xFF)

/-- The member `std::vector<u8>::push_back`. -/
def push_back (instruction_stream : List Nat) (byte : Nat) : List Nat :=
  instruction_stream ++ [byte]

/-- The function `emit_x86_instruction::Mov`: bytes for the IA-32 instruction
"MOV r/m32, imm32", opcode format "C7 /0 id". -/
def emit_x86_instruction.Mov (instruction_stream : List Nat) (value : Int)
    (reg : Register) : List Nat :=
  let s1 := push_back instruction_stream 0xC7
  let s2 := push_back s1 (MakeModRmByte Mode.Register 0b000 (EnumToByte reg))
  let s3 := push_back s2 (ExtractByte value 0)
  let s4 := push_back s3 (ExtractByte value 1)
  let s5 := push_back s4 (ExtractByte value 2)
  push_back s5 (ExtractByte value 3)

/-- The function `emit_x86_instruction::Int`: bytes for the IA-32 instruction
"INT imm8", opcode format "CD ib". -/
def emit_x86_instruction.Int (instruction_stream : List Nat)
    (interrupt_vector : Nat) : List Nat :=
  let s1 := push_back instruction_stream 0xCD
  push_back s1 interrupt_vector

/-! ## Formulas of the specification -/

/-- The addressing byte as the specification words it: each field is masked
to its bit width (2, 3 and 3 bits) before packing. -/
def maskedAddressingByte (mode : Mode) (reg_or_opcode reg_or_memory : Nat) : Nat :=
  ((mode.value &&& 0b11) <<< 6) ||| ((reg_or_opcode &&& 0b111) <<< 3) |||
    (reg_or_memory &&& 0b111)

/-- The little-endian reassembly of four bytes into a 32-bit pattern. -/
def reassemble (b0 b1 b2 b3 : Nat) : Nat :=
  b0 + b1 * 2 ^ 8 + b2 * 2 ^ 16 + b3 * 2 ^ 24

/-! ## Sequences of emission calls -/

/-- One call of a function of the namespace `emit_x86_instruction`, with its
arguments other than the stream. -/
inductive Emission where
  | mov (value : Int) (reg : Register)
  | int (interrupt_vector : Nat)
  deriving DecidableEq, Repr

/-- Performs one emission call on a stream. -/
def Emission.run (instruction_stream : List Nat) : Emission → List Nat
  | .mov value reg => emit_x86_instruction.Mov instruction_stream value reg
  | .int interrupt_vector => emit_x86_instruction.Int instruction_stream interrupt_vector

/-- Performs a sequence of emission calls, in order, on one stream. -/
def runEmissions (instruction_stream : List Nat) (calls : List Emission) : List Nat :=
  calls.foldl Emission.run instruction_stream

/-- The number of bytes an emission call is specified to append. -/
def Emission.size : Emission → Nat
  | .mov _ _ => 6
  | .int _ => 2

/-- The number of positions of a stream at which byte `x` is immediately
followed by byte `y`. -/
def countAdjacent (x y : Nat) : List Nat → Nat
  | a :: b :: rest => (if a = x ∧ b = y then 1 else 0) + countAdjacent x y (b :: rest)
  | _ => 0

/-- The four bytes `ExtractByte value 0 .. 3` of an immediate, in emission order. -/
def immediateBytes (value : Int) : List Nat :=
  [ExtractByte value 0, ExtractByte value 1, ExtractByte value 2, ExtractByte value 3]

/-! ## The program `main` -/

/-- The constant `kString` of `main`. -/
def kString : String := "Hello, world!\n"

/-- The function `std::strlen` on a string without embedded zero bytes. -/
def strlen (s : String) : Nat := s.utf8ByteSize

/-- Lines 70-80 of `main`: the instruction stream built from an empty vector.
`address` stands for `reinterpret_cast<i32>(kString)` and `length` for
`static_cast<i32>(std::strlen(kString))`. -/
def mainInstructionStream (address length : Int) : List Nat :=
  let s0 : List Nat := []
  let s1 := emit_x86_instruction.Mov s0 4 Register.Eax
  let s2 := emit_x86_instruction.Mov s1 1 Register.Ebx
  let s3 := emit_x86_instruction.Mov s2 address Register.Ecx
  let s4 := emit_x86_instruction.Mov s3 length Register.Edx
  let s5 := emit_x86_instruction.Int s4 0x80
  let s6 := emit_x86_instruction.Mov s5 1 Register.Eax
  let s7 := emit_x86_instruction.Mov s6 0 Register.Ebx
  emit_x86_instruction.Int s7 0x80

/-- The actions of `main` on its environment, in program order. -/
inductive Event where
  /-- The call `mmap(nullptr, length, PROT_WRITE | PROT_EXEC, MAP_PRIVATE | MAP_ANONYMOUS, -1, 0)`. -/
  | mmap (length : Nat)
  /-- The diagnostic line written to `std::cout`, with the value of `errno`. -/
  | print (errno : Int)
  /-- The call `std::memcpy(dest, src, count)`, `src` given by its contents. -/
  | memcpy (dest : Nat) (src : List Nat) (count : Nat)
  /-- The call of the function pointer `execute_instructions`. -/
  | call (entry : Nat)
  deriving DecidableEq, Repr

/-- What `main` receives from outside: the address of `kString` as an `i32`,
the result of `mmap` (`none` is `MAP_FAILED`), the value of `errno` after a
failed `mmap`, and whether the invoked instructions return to `main`. -/
structure Environment where
  address : Int
  mmapResult : Option Nat
  errno : Int
  callReturns : Bool

/-- The result of running `main`: its actions and the value it returns
(`none` when control never comes back from the invoked instructions). -/
structure Outcome where
  trace : List Event
  status : Option Int
  deriving DecidableEq, Repr

/-- The function `main` of the program. -/
def Program.main (env : Environment) : Outcome :=
  let instruction_stream := mainInstructionStream env.address (toI32 (strlen kString))
  let t1 := [Event.mmap instruction_stream.length]
  match env.mmapResult with
  | none => ⟨t1 ++ [Event.print env.errno], some (-1)⟩
  | some memory =>
    let t2 := t1 ++ [Event.memcpy memory instruction_stream instruction_stream.length]
    let t3 := t2 ++ [Event.call memory]
    if env.callReturns then ⟨t3, some (-500)⟩ else ⟨t3, none⟩

/-- Whether an action is the copy into the mapped region. -/
def Event.isMemcpy : Event → Bool
  | .memcpy _ _ _ => true
  | _ => false

/-- Whether an action is the invocation of the mapped region. -/
def Event.isCall : Event → Bool
  | .call _ => true
  | _ => false

/-- The lengths passed to `mmap`, in the order of the calls of a trace. -/
def requestedSizes : List Event → List Nat
  | [] => []
  | Event.mmap length :: rest => length :: requestedSizes rest
  | _ :: rest => requestedSizes rest

/-- The byte counts passed to `std::memcpy`, in the order of the calls of a trace. -/
def copiedCounts : List Event → List Nat
  | [] => []
  | Event.memcpy _ _ count :: rest => count :: copiedCounts rest
  | _ :: rest => copiedCounts rest

/-- The value returned by `main` as the parent process sees it: the low 8 bits
of the status. -/
def exitStatus8 (status : Int) : Nat := (status % 256).toNat

/-- An emission call whose arguments are in the range of their parameter
types: an `i32` value for `Mov`, a `u8` vector for `Int`. -/
def Emission.WellTyped : Emission → Prop
  | .mov value _ => IsI32 value
  | .int interrupt_vector => IsU8 interrupt_vector

instance (c : Emission) : Decidable c.WellTyped := by
  cases c <;> unfold Emission.WellTyped <;> infer_instance

/-! ## The encoder with explicit error branches

The same functions, where a shift of an `int` by 32 bits or more (undefined
in C++) and a field value that does not fit its 3-bit width return `none`. -/

/-- The function `MakeModRmByte`, failing when a field does not fit in 3 bits. -/
def MakeModRmByteChecked (mode : Mode) (reg_or_opcode reg_or_memory : Nat) : Option Nat :=
  if reg_or_opcode < 8 ∧ reg_or_memory < 8 then
    some (toU8 ((EnumToByte mode <<< 6) ||| (reg_or_opcode <<< 3) ||| reg_or_memory))
  else none

/-- The function `ExtractByte`, failing when the shift amount `byte_index * 8`
is not below the width 32 of `int`. -/
def ExtractByteChecked (value : Int) (byte_index : Nat) : Option Nat :=
  if byte_index * 8 % 4294967296 < 32 then
    some (toU8 (andInt (value >>> (byte_index * 8 % 4294967296)) 0xFF))
  else none

/-- The function `emit_x86_instruction::Mov` over the checked helpers: `none`
as soon as one of its calls reaches an error branch. -/
def emit_x86_instruction.MovChecked (instruction_stream : List Nat) (value : ℤ)
    (reg : Register) : Option (List Nat) := do
  let s1 := push_back instruction_stream 0xC7
  let modRm ← MakeModRmByteChecked Mode.Register 0b000 (EnumToByte reg)
  let s2 := push_back s1 modRm
  let b0 ← ExtractByteChecked value 0
  let s3 := push_back s2 b0
  let b1 ← ExtractByteChecked value 1
  let s4 := push_back s3 b1
  let b2 ← ExtractByteChecked value 2
  let s5 := push_back s4 b2
  let b3 ← ExtractByteChecked value 3
  pure (push_back s5 b3)

/-! ## Auxiliary facts -/

theorem push_back_length (s : List Nat) (b : Nat) : (push_back s b).length = s.length + 1 := by
  simp [push_back]

theorem Mov_append (s : List Nat) (v : Int) (r : Register) :
    emit_x86_instruction.Mov s v r =
      s ++ 0xC7 :: MakeModRmByte Mode.Register 0b000 (EnumToByte r) :: immediateBytes v := by
  simp [emit_x86_instruction.Mov, push_back, immediateBytes]

theorem Int_append (s : List Nat) (n : Nat) :
    emit_x86_instruction.Int s n = s ++ [0xCD, n] := by
  simp [emit_x86_instruction.Int, push_back]

theorem modRm_register_direct (r : Register) :
    MakeModRmByte Mode.Register 0b000 (EnumToByte r) = 0b11000000 ||| (0b000 <<< 3) ||| r.value := by
  cases r <;> decide

theorem and_255 (n : Nat) : n &&& 255 = n % 256 := by
  have h := Nat.and_pow_two_sub_one_eq_mod n 8
  norm_num at h
  exact h

theorem ExtractByte_lt (v : Int) (i : Nat) : ExtractByte v i < 256 := by
  unfold ExtractByte toU8
  omega

theorem bits32_lt (v : Int) : bits32 v < 4294967296 := by
  unfold bits32
  omega

theorem ExtractByte_eq_bits32 (v : Int) (i : Nat) (hi : i < 4) :
    ExtractByte v i = bits32 v / 2 ^ (8 * i) % 256 := by
  unfold ExtractByte toU8 andInt
  rw [and_255]
  unfold bits32
  interval_cases i <;> simp only [Int.shiftRight_eq_div_pow] <;> norm_num <;> omega

theorem reassemble_ExtractByte (v : Int) :
    reassemble (ExtractByte v 0) (ExtractByte v 1) (ExtractByte v 2) (ExtractByte v 3) =
      bits32 v := by
  rw [ExtractByte_eq_bits32 v 0 (by decide), ExtractByte_eq_bits32 v 1 (by decide),
    ExtractByte_eq_bits32 v 2 (by decide), ExtractByte_eq_bits32 v 3 (by decide)]
  have h := bits32_lt v
  unfold reassemble
  norm_num
  omega

theorem toI32_bits32 (v : Int) (hv : IsI32 v) : toI32 (bits32 v) = v := by
  obtain ⟨h1, h2⟩ := hv
  unfold toI32 bits32
  split <;> omega

theorem Emission.run_append (s : List Nat) (c : Emission) :
    c.run s = s ++ c.run [] := by
  cases c with
  | mov v r => simp [Emission.run, Mov_append]
  | int n => simp [Emission.run, Int_append]

theorem Emission.run_nil_length (c : Emission) : (c.run []).length = c.size := by
  cases c with
  | mov v r => simp [Emission.run, Mov_append, immediateBytes, Emission.size]
  | int n => simp [Emission.run, Int_append, Emission.size]

theorem runEmissions_eq (s : List Nat) (calls : List Emission) :
    runEmissions s calls = s ++ (calls.map (Emission.run [])).flatten := by
  induction calls generalizing s with
  | nil => simp [runEmissions]
  | cons c cs ih =>
    have h : runEmissions s (c :: cs) = runEmissions (c.run s) cs := rfl
    rw [h, ih, Emission.run_append s c]
    simp

theorem flatten_run_length (calls : List Emission) :
    ((calls.map (Emission.run [])).flatten).length = (calls.map Emission.size).sum := by
  induction calls with
  | nil => rfl
  | cons c cs ih => simp [ih, Emission.run_nil_length]

theorem mainInstructionStream_eq (a n : Int) :
    mainInstructionStream a n =
      [0xC7, 0xC0, 4, 0, 0, 0, 0xC7, 0xC3, 1, 0, 0, 0, 0xC7, 0xC1] ++ immediateBytes a ++
        [0xC7, 0xC2] ++ immediateBytes n ++
        [0xCD, 0x80, 0xC7, 0xC0, 1, 0, 0, 0, 0xC7, 0xC3, 0, 0, 0, 0, 0xCD, 0x80] := by
  have h4 : immediateBytes 4 = [4, 0, 0, 0] := by decide
  have h1 : immediateBytes 1 = [1, 0, 0, 0] := by decide
  have h0 : immediateBytes 0 = [0, 0, 0, 0] := by decide
  have ra : MakeModRmByte Mode.Register 0b000 (EnumToByte Register.Eax) = 0xC0 := by decide
  have rb : MakeModRmByte Mode.Register 0b000 (EnumToByte Register.Ebx) = 0xC3 := by decide
  have rc : MakeModRmByte Mode.Register 0b000 (EnumToByte Register.Ecx) = 0xC1 := by decide
  have rd : MakeModRmByte Mode.Register 0b000 (EnumToByte Register.Edx) = 0xC2 := by decide
  simp only [mainInstructionStream, Mov_append, Int_append, h4, h1, h0, ra, rb, rc, rd]
  simp

theorem immediateBytes_length (v : Int) : (immediateBytes v).length = 4 := rfl

/-! ## The claims -/

/-- C1: for every stream `s`, every `i32` value `v` and every register `r`,
`emit_x86_instruction::Mov(s, v, r)` leaves `s` followed by exactly the 6 bytes
`[0xC7, addressingByte, ExtractByte(v,0), .., ExtractByte(v,3)]` with
`addressingByte = 0b11000000 | (0b000 << 3) | registerCode(r)`; each new
byte is a `u8`. -/
theorem Mov_appends_six_bytes (s : List Nat) (v : Int) (r : Register) (hv : IsI32 v) :
    emit_x86_instruction.Mov s v r =
        s ++ [0xC7, 0b11000000 ||| (0b000 <<< 3) ||| r.value,
          ExtractByte v 0, ExtractByte v 1, ExtractByte v 2, ExtractByte v 3] ∧
      (emit_x86_instruction.Mov s v r).length = s.length + 6 ∧
      ∀ b ∈ (emit_x86_instruction.Mov s v r).drop s.length, IsU8 b := by
  have hv0 := hv
  have h : emit_x86_instruction.Mov s v r =
      s ++ [0xC7, 0b11000000 ||| (0b000 <<< 3) ||| r.value,
        ExtractByte v 0, ExtractByte v 1, ExtractByte v 2, ExtractByte v 3] := by
    rw [Mov_append, modRm_register_direct]
    rfl
  refine ⟨h, ?_, ?_⟩
  · rw [h]
    simp
  · rw [h, List.drop_left]
    intro b hb
    simp only [List.mem_cons, List.mem_singleton, List.not_mem_nil, or_false] at hb
    have h0 := ExtractByte_lt v 0
    have h1 := ExtractByte_lt v 1
    have h2 := ExtractByte_lt v 2
    have h3 := ExtractByte_lt v 3
    unfold IsU8
    rcases hb with hb | hb | hb | hb | hb | hb
    · subst hb; decide
    · subst hb; cases r <;> decide
    · omega
    · omega
    · omega
    · omega

/-- Witness of C1: the value `-2` moved to `Ebx` after one earlier byte. -/
theorem Mov_appends_six_bytes_witness :
    IsI32 (-2) ∧
      emit_x86_instruction.Mov [0x90] (-2) Register.Ebx =
        [0x90, 0xC7, 0xC3, 0xFE, 0xFF, 0xFF, 0xFF] :=
  ⟨by decide, (Mov_appends_six_bytes [0x90] (-2) Register.Ebx (by decide)).1.trans (by decide)⟩

/-- C2: for every stream `s` and every `u8` vector `n`,
`emit_x86_instruction::Int(s, n)` leaves `s` followed by exactly the 2 bytes
`[0xCD, n]`. -/
theorem Int_appends_two_bytes (s : List Nat) (n : Nat) (hn : IsU8 n) :
    emit_x86_instruction.Int s n = s ++ [0xCD, n] ∧
      (emit_x86_instruction.Int s n).length = s.length + 2 ∧
      ∀ b ∈ (emit_x86_instruction.Int s n).drop s.length, IsU8 b := by
  have h := Int_append s n
  refine ⟨h, ?_, ?_⟩
  · rw [h]
    simp
  · rw [h, List.drop_left]
    intro b hb
    simp only [List.mem_cons, List.mem_singleton, List.not_mem_nil, or_false] at hb
    rcases hb with hb | hb
    · subst hb; decide
    · subst hb; exact hn

/-- Witness of C2: the vector `0x80` after one earlier byte. -/
theorem Int_appends_two_bytes_witness :
    IsU8 0x80 ∧ emit_x86_instruction.Int [0x90] 0x80 = [0x90, 0xCD, 0x80] :=
  ⟨by decide, (Int_appends_two_bytes [0x90] 0x80 (by decide)).1⟩

/-- C3, as stated, fails: `MakeModRmByte` does not mask its arguments. With
mode `Address`, `reg_or_opcode = 0` and `reg_or_memory = 0xFF` the code
returns `0xFF`, the masked formula gives `0x07`. -/
theorem MakeModRmByte_not_masked :
    IsU8 0 ∧ IsU8 0xFF ∧ MakeModRmByte Mode.Address 0 0xFF = 0xFF ∧
      maskedAddressingByte Mode.Address 0 0xFF = 0x07 ∧
      MakeModRmByte Mode.Address 0 0xFF ≠ maskedAddressingByte Mode.Address 0 0xFF := by
  decide

/-- C3, amended: for every mode and every pair of arguments that fit their
3-bit fields (`0..7` each), `MakeModRmByte` equals the masked formula
`((mode.code & 0b11) << 6) | ((reg_or_opcode & 0b111) << 3) | (reg_or_memory & 0b111)`. -/
theorem MakeModRmByte_eq_masked_of_fits (mode : Mode) (reg_or_opcode reg_or_memory : Nat)
    (h1 : reg_or_opcode < 8) (h2 : reg_or_memory < 8) :
    MakeModRmByte mode reg_or_opcode reg_or_memory =
      maskedAddressingByte mode reg_or_opcode reg_or_memory := by
  interval_cases reg_or_opcode <;> interval_cases reg_or_memory <;> cases mode <;> rfl

/-- Witness of C3 amended: register-direct mode, opcode extension `0`, register code `3`. -/
theorem MakeModRmByte_eq_masked_of_fits_witness :
    (0 : Nat) < 8 ∧ (3 : Nat) < 8 ∧
      MakeModRmByte Mode.Register 0 3 = maskedAddressingByte Mode.Register 0 3 :=
  ⟨by decide, by decide, MakeModRmByte_eq_masked_of_fits Mode.Register 0 3 (by decide) (by decide)⟩

/-- C4: for every mode and all 3-bit field values `x` and `y`, the byte
`b = MakeModRmByte(mode, x, y)` has the mode code in its top two bits, `x` in
bits 3-5 and `y` in bits 0-2, so the three fields are recoverable from `b`. -/
theorem MakeModRmByte_fields (mode : Mode) (x y : Nat) (hx : x < 8) (hy : y < 8) :
    MakeModRmByte mode x y >>> 6 = mode.value ∧
      (MakeModRmByte mode x y >>> 3) &&& 7 = x ∧
      MakeModRmByte mode x y &&& 7 = y := by
  interval_cases x <;> interval_cases y <;> cases mode <;> decide

/-- Witness of C4: mode `AddressPlus32bitDisplacement`, fields `5` and `6`. -/
theorem MakeModRmByte_fields_witness :
    (5 : Nat) < 8 ∧ (6 : Nat) < 8 ∧
      MakeModRmByte Mode.AddressPlus32bitDisplacement 5 6 >>> 6 = 0b10 ∧
      (MakeModRmByte Mode.AddressPlus32bitDisplacement 5 6 >>> 3) &&& 7 = 5 ∧
      MakeModRmByte Mode.AddressPlus32bitDisplacement 5 6 &&& 7 = 6 :=
  ⟨by decide, by decide,
    MakeModRmByte_fields Mode.AddressPlus32bitDisplacement 5 6 (by decide) (by decide)⟩

/-- C5: little-endian round trip. For every `i32` value `v`, reassembling
`b0 + b1*2^8 + b2*2^16 + b3*2^24` from `bi = ExtractByte(v, i)` and reading the
32-bit pattern as a signed integer gives back `v`; the value `-1` yields the
bytes `[0xFF, 0xFF, 0xFF, 0xFF]`. -/
theorem ExtractByte_round_trip (v : Int) (hv : IsI32 v) :
    toI32 (reassemble (ExtractByte v 0) (ExtractByte v 1) (ExtractByte v 2) (ExtractByte v 3))
        = v ∧
      immediateBytes (-1) = [0xFF, 0xFF, 0xFF, 0xFF] := by
  refine ⟨?_, by decide⟩
  rw [reassemble_ExtractByte, toI32_bits32 v hv]

/-- Witness of C5: the most negative `i32` value. -/
theorem ExtractByte_round_trip_witness :
    IsI32 (-2147483648) ∧
      toI32 (reassemble (ExtractByte (-2147483648) 0) (ExtractByte (-2147483648) 1)
        (ExtractByte (-2147483648) 2) (ExtractByte (-2147483648) 3)) = -2147483648 :=
  ⟨by decide, (ExtractByte_round_trip (-2147483648) (by decide)).1⟩

/-- C6: for every `i32` value `v` and every index `i` in `0..3`,
`ExtractByte(v, i)` is byte `i` of the 32-bit two's-complement pattern of `v`,
that is `((v mod 2^32) / 2^(8*i)) mod 256`. -/
theorem ExtractByte_twos_complement (v : Int) (i : Nat) (hv : IsI32 v) (hi : i < 4) :
    (ExtractByte v i : Int) = (v % 2 ^ 32) / 2 ^ (8 * i) % 256 := by
  have hv0 := hv
  rw [ExtractByte_eq_bits32 v i hi]
  unfold bits32
  interval_cases i <;> norm_num <;> omega

/-- Witness of C6: byte 0 of `-1` is `0xFF`, while its magnitude `1` has byte 0 equal to `1`. -/
theorem ExtractByte_twos_complement_witness :
    IsI32 (-1) ∧ (0 : Nat) < 4 ∧ (ExtractByte (-1) 0 : Int) = 255 ∧
      ExtractByte (-1) 0 ≠ Int.natAbs (-1) / 2 ^ (8 * 0) % 256 :=
  ⟨by decide, by decide,
    (ExtractByte_twos_complement (-1) 0 (by decide) (by decide)).trans (by decide), by decide⟩

/-- C7, as stated, fails: the stream `main` builds (address `0`, length `14`)
has 40 bytes, not 34. -/
theorem mainInstructionStream_length_ne_34 :
    IsI32 0 ∧ IsI32 14 ∧ (mainInstructionStream 0 14).length = 40 ∧
      ¬ ((mainInstructionStream 0 14).length = 34 ∧
        (mainInstructionStream 0 14).take 6 = [0xC7, 0xC0, 0x04, 0x00, 0x00, 0x00]) := by
  decide

/-- C7, amended: for every `i32` address `a` and every `i32` length `n`, the
stream built from an empty stream by the call sequence of `main` has length
exactly 40 (six `Mov` of 6 bytes and two `Int` of 2 bytes) and its first six
bytes are `C7 C0 04 00 00 00`. -/
theorem mainInstructionStream_length_and_head (a n : Int) (ha : IsI32 a) (hn : IsI32 n) :
    (mainInstructionStream a n).length = 40 ∧
      (mainInstructionStream a n).take 6 = [0xC7, 0xC0, 0x04, 0x00, 0x00, 0x00] := by
  have ha0 := ha
  have hn0 := hn
  rw [mainInstructionStream_eq]
  constructor
  · simp [immediateBytes_length]
  · rfl

/-- Witness of C7 amended: a negative address pattern and the length `14`. -/
theorem mainInstructionStream_length_and_head_witness :
    IsI32 (-1073745920) ∧ IsI32 14 ∧
      (mainInstructionStream (-1073745920) 14).length = 40 ∧
      (mainInstructionStream (-1073745920) 14).take 6 = [0xC7, 0xC0, 0x04, 0x00, 0x00, 0x00] :=
  ⟨by decide, by decide,
    mainInstructionStream_length_and_head (-1073745920) 14 (by decide) (by decide)⟩

/-- C8, as stated, fails: with the address `0x000080CD` the immediate of the
third `Mov` is itself `CD 80 00 00`, and the stream has three positions at
which `0xCD` is immediately followed by `0x80`. -/
theorem mainInstructionStream_three_pairs :
    IsI32 0x80CD ∧ IsI32 14 ∧
      countAdjacent 0xCD 0x80 (mainInstructionStream 0x80CD 14) = 3 ∧
      countAdjacent 0xCD 0x80 (mainInstructionStream 0x80CD 14) ≠ 2 := by
  decide

/-- C8, amended: for every `i32` address `a` and every `i32` length `n` whose
four little-endian bytes contain no `0xCD` immediately followed by `0x80`, the
40-byte stream built by the call sequence of `main` contains exactly two
positions at which byte `0xCD` is immediately followed by byte `0x80`. -/
theorem mainInstructionStream_two_pairs (a n : Int) (ha : IsI32 a) (hn : IsI32 n)
    (hab : countAdjacent 0xCD 0x80 (immediateBytes a) = 0)
    (hnb : countAdjacent 0xCD 0x80 (immediateBytes n) = 0) :
    countAdjacent 0xCD 0x80 (mainInstructionStream a n) = 2 := by
  have ha0 := ha
  have hn0 := hn
  rw [mainInstructionStream_eq]
  unfold immediateBytes at *
  generalize ExtractByte a 0 = a0 at *
  generalize ExtractByte a 1 = a1 at *
  generalize ExtractByte a 2 = a2 at *
  generalize ExtractByte a 3 = a3 at *
  generalize ExtractByte n 0 = n0 at *
  generalize ExtractByte n 1 = n1 at *
  generalize ExtractByte n 2 = n2 at *
  generalize ExtractByte n 3 = n3 at *
  simp only [List.cons_append, List.nil_append]
  simp [countAdjacent] at hab hnb ⊢
  obtain ⟨p1, p2, p3⟩ := hab
  obtain ⟨q1, q2, q3⟩ := hnb
  rw [if_neg (fun h => p1 h.1 h.2), if_neg (fun h => p2 h.1 h.2), if_neg (fun h => p3 h.1 h.2),
    if_neg (fun h => q1 h.1 h.2), if_neg (fun h => q2 h.1 h.2), if_neg (fun h => q3 h.1 h.2)]

/-- Witness of C8 amended: the address `0` and the length `14` of `main`. -/
theorem mainInstructionStream_two_pairs_witness :
    IsI32 0 ∧ IsI32 14 ∧ countAdjacent 0xCD 0x80 (immediateBytes 0) = 0 ∧
      countAdjacent 0xCD 0x80 (immediateBytes 14) = 0 ∧
      countAdjacent 0xCD 0x80 (mainInstructionStream 0 14) = 2 :=
  ⟨by decide, by decide, by decide, by decide,
    mainInstructionStream_two_pairs 0 14 (by decide) (by decide) (by decide) (by decide)⟩

/-- C9: encoding is an append-only, order-preserving fold. For every initial
stream `s` and every finite sequence of emission calls, the result is `s`
followed by the concatenation, in call order, of the bytes each call produces
on an empty stream; so `s` is a prefix of the result, no earlier byte is
changed, and the length grows by exactly 6 per `Mov` and 2 per `Int`. -/
theorem runEmissions_append_only (s : List Nat) (calls : List Emission) :
    runEmissions s calls = s ++ (calls.map (Emission.run [])).flatten ∧
      s <+: runEmissions s calls ∧
      (∀ i, i < s.length → (runEmissions s calls)[i]? = s[i]?) ∧
      (runEmissions s calls).length = s.length + (calls.map Emission.size).sum := by
  have h := runEmissions_eq s calls
  refine ⟨h, ?_, ?_, ?_⟩
  · rw [h]
    exact List.prefix_append _ _
  · intro i hi
    rw [h, List.getElem?_append_left hi]
  · rw [h, List.length_append, flatten_run_length]

/-- C10: whenever `mmap` reports `MAP_FAILED`, `main` returns `-1` right after
printing the diagnostic: its only actions are the `mmap` call and the print, so
neither the `memcpy` into the region nor the invocation of the region happens. -/
theorem main_mmap_failure (env : Environment) (h : env.mmapResult = none) :
    (Program.main env).status = some (-1) ∧
      (Program.main env).trace =
        [Event.mmap (mainInstructionStream env.address 14).length, Event.print env.errno] ∧
      ∀ e ∈ (Program.main env).trace, e.isMemcpy = false ∧ e.isCall = false := by
  have hs : (Program.main env).status = some (-1) ∧
      (Program.main env).trace =
        [Event.mmap (mainInstructionStream env.address 14).length, Event.print env.errno] := by
    unfold Program.main
    rw [h]
    exact ⟨rfl, rfl⟩
  refine ⟨hs.1, hs.2, ?_⟩
  intro e he
  rw [hs.2] at he
  simp only [List.mem_cons, List.mem_singleton, List.not_mem_nil, or_false] at he
  rcases he with he | he <;> subst he <;> exact ⟨rfl, rfl⟩

/-- Witness of C10: a failed mapping with `errno = 12` (`ENOMEM`). -/
theorem main_mmap_failure_witness :
    (Environment.mk 0 none 12 false).mmapResult = none ∧
      (Program.main (Environment.mk 0 none 12 false)).status = some (-1) ∧
      (Program.main (Environment.mk 0 none 12 false)).trace = [Event.mmap 40, Event.print 12] :=
  ⟨rfl, (main_mmap_failure (Environment.mk 0 none 12 false) rfl).1,
    (main_mmap_failure (Environment.mk 0 none 12 false) rfl).2.1.trans (by decide)⟩

/-! ## Further auxiliary facts -/

theorem strlen_kString : toI32 (strlen kString) = 14 := by decide

theorem mainInstructionStream_length (a n : Int) : (mainInstructionStream a n).length = 40 := by
  rw [mainInstructionStream_eq]
  simp [immediateBytes_length]

theorem EnumToByte_mode (mode : Mode) : EnumToByte mode = mode.value := by
  cases mode <;> rfl

theorem EnumToByte_register_lt (r : Register) : EnumToByte r < 8 := by
  cases r <;> decide

theorem ExtractByteChecked_eq (v : Int) (i : Nat) (hi : i < 4) :
    ExtractByteChecked v i = some (ExtractByte v i) := by
  have h : i * 8 % 4294967296 < 32 := by omega
  unfold ExtractByteChecked ExtractByte
  rw [if_pos h]

theorem MakeModRmByteChecked_eq (mode : Mode) (x y : Nat) (hx : x < 8) (hy : y < 8) :
    MakeModRmByteChecked mode x y = some (MakeModRmByte mode x y) := by
  unfold MakeModRmByteChecked MakeModRmByte
  rw [if_pos ⟨hx, hy⟩]

/-! ## The claims, continued -/

/-- C11, as stated, fails: on the success path the size passed to `mmap` and
the count passed to `memcpy` are both 40, the length of the stream, not 34. -/
theorem main_sizes_not_34 :
    (Environment.mk 0 (some 4096) 0 false).mmapResult = some 4096 ∧
      requestedSizes (Program.main (Environment.mk 0 (some 4096) 0 false)).trace = [40] ∧
      copiedCounts (Program.main (Environment.mk 0 (some 4096) 0 false)).trace = [40] ∧
      ¬ (requestedSizes (Program.main (Environment.mk 0 (some 4096) 0 false)).trace = [34] ∧
        copiedCounts (Program.main (Environment.mk 0 (some 4096) 0 false)).trace = [34]) := by
  decide

/-- C11, amended: in `main` the size requested from `mmap` and the number of
bytes copied by `memcpy` are both exactly the final length of the instruction
stream, which is 40; on the success path the copy starts at the mapped address
and takes the whole stream, so the copied count never exceeds the requested
size. -/
theorem main_copy_matches_mapping (env : Environment) (memory : Nat)
    (h : env.mmapResult = some memory) :
    (Program.main env).trace =
        [Event.mmap (mainInstructionStream env.address 14).length,
          Event.memcpy memory (mainInstructionStream env.address 14)
            (mainInstructionStream env.address 14).length,
          Event.call memory] ∧
      (mainInstructionStream env.address 14).length = 40 ∧
      requestedSizes (Program.main env).trace = [40] ∧
      copiedCounts (Program.main env).trace = [40] ∧
      ∀ size ∈ requestedSizes (Program.main env).trace,
        ∀ count ∈ copiedCounts (Program.main env).trace, count ≤ size := by
  have hlen := mainInstructionStream_length env.address 14
  have ht : (Program.main env).trace =
      [Event.mmap (mainInstructionStream env.address 14).length,
        Event.memcpy memory (mainInstructionStream env.address 14)
          (mainInstructionStream env.address 14).length,
        Event.call memory] := by
    unfold Program.main
    rw [h, strlen_kString]
    cases env.callReturns <;> rfl
  have hr : requestedSizes (Program.main env).trace = [40] := by
    rw [ht, hlen]
    rfl
  have hc : copiedCounts (Program.main env).trace = [40] := by
    rw [ht, hlen]
    rfl
  refine ⟨ht, hlen, hr, hc, ?_⟩
  rw [hr, hc]
  intro size hsize count hcount
  simp only [List.mem_singleton] at hsize hcount
  omega

/-- Witness of C11 amended: a successful mapping at address `4096`. -/
theorem main_copy_matches_mapping_witness :
    (Environment.mk 0 (some 4096) 0 false).mmapResult = some 4096 ∧
      requestedSizes (Program.main (Environment.mk 0 (some 4096) 0 false)).trace = [40] ∧
      copiedCounts (Program.main (Environment.mk 0 (some 4096) 0 false)).trace = [40] :=
  ⟨rfl, (main_copy_matches_mapping (Environment.mk 0 (some 4096) 0 false) 4096 rfl).2.2.1,
    (main_copy_matches_mapping (Environment.mk 0 (some 4096) 0 false) 4096 rfl).2.2.2.1⟩

/-- C12: `MakeModRmByte` is a deterministic function whose result is a single
byte. For every mode and every pair of `u8` arguments, equal inputs give equal
outputs, the result lies in `0..255`, and it is the wider intermediate
`(mode << 6) | (x << 3) | y` reduced modulo 256. -/
theorem MakeModRmByte_single_byte (mode mode2 : Mode) (x y x2 y2 : Nat)
    (hx : IsU8 x) (hy : IsU8 y) (hm : mode = mode2) (hx2 : x = x2) (hy2 : y = y2) :
    MakeModRmByte mode x y = MakeModRmByte mode2 x2 y2 ∧
      IsU8 (MakeModRmByte mode x y) ∧
      MakeModRmByte mode x y = ((mode.value <<< 6) ||| (x <<< 3) ||| y) % 256 := by
  have hx0 := hx
  have hy0 := hy
  refine ⟨by rw [hm, hx2, hy2], ?_, ?_⟩
  · unfold IsU8 MakeModRmByte toU8
    omega
  · unfold MakeModRmByte toU8
    rw [EnumToByte_mode]

/-- Witness of C12: both arguments `0xFF` in register-direct mode; the
intermediate is `0x7FF` and the returned byte `0xFF`. -/
theorem MakeModRmByte_single_byte_witness :
    IsU8 0xFF ∧ (Mode.Register.value <<< 6) ||| (0xFF <<< 3) ||| 0xFF = 0x7FF ∧
      MakeModRmByte Mode.Register 0xFF 0xFF = 0xFF :=
  ⟨by decide, by decide,
    (MakeModRmByte_single_byte Mode.Register Mode.Register 0xFF 0xFF 0xFF 0xFF
      (by decide) (by decide) rfl rfl rfl).2.2.trans (by decide)⟩

/-- C14: the four registers carry pairwise distinct 3-bit codes equal to the
IA-32 register numbers (`Eax = 0`, `Ecx = 1`, `Edx = 2`, `Ebx = 3`), so for
every value the second byte emitted by `Mov` is `0xC0` for `Eax`, `0xC3` for
`Ebx`, `0xC1` for `Ecx` and `0xC2` for `Edx`: the ModR/M byte of "C7 /0 id"
with mod `11`, reg field `000` and r/m the register number. -/
theorem Register_codes_and_modRm (s : List Nat) (v : Int) (hv : IsI32 v) :
    (Register.Eax.value = 0 ∧ Register.Ecx.value = 1 ∧ Register.Edx.value = 2 ∧
        Register.Ebx.value = 3) ∧
      (∀ r r2 : Register, r.value = r2.value → r = r2) ∧
      (∀ r : Register, r.value < 8) ∧
      (emit_x86_instruction.Mov s v Register.Eax)[s.length + 1]? = some 0xC0 ∧
      (emit_x86_instruction.Mov s v Register.Ebx)[s.length + 1]? = some 0xC3 ∧
      (emit_x86_instruction.Mov s v Register.Ecx)[s.length + 1]? = some 0xC1 ∧
      (emit_x86_instruction.Mov s v Register.Edx)[s.length + 1]? = some 0xC2 ∧
      ∀ r : Register, (emit_x86_instruction.Mov s v r)[s.length + 1]? =
        some ((0b11 <<< 6) ||| (0b000 <<< 3) ||| r.value) := by
  have hv0 := hv
  have hgen : ∀ r : Register, (emit_x86_instruction.Mov s v r)[s.length + 1]? =
      some ((0b11 <<< 6) ||| (0b000 <<< 3) ||| r.value) := by
    intro r
    rw [Mov_append, List.getElem?_append_right (by omega), modRm_register_direct]
    simp
  refine ⟨⟨rfl, rfl, rfl, rfl⟩, ?_, ?_, ?_, ?_, ?_, ?_, hgen⟩
  · intro r r2
    cases r <;> cases r2 <;> decide
  · intro r
    cases r <;> decide
  · exact (hgen Register.Eax).trans (by decide)
  · exact (hgen Register.Ebx).trans (by decide)
  · exact (hgen Register.Ecx).trans (by decide)
  · exact (hgen Register.Edx).trans (by decide)

/-- Witness of C14: the value `-2` moved to `Edx` after one earlier byte. -/
theorem Register_codes_and_modRm_witness :
    IsI32 (-2) ∧ (emit_x86_instruction.Mov [0x90] (-2) Register.Edx)[1 + 1]? = some 0xC2 :=
  ⟨by decide, (Register_codes_and_modRm [0x90] (-2) (by decide)).2.2.2.2.2.2.1⟩

/-- C15, as stated, fails: in the stream of `main` (address `0`) the two bytes
at offset 32 are `C7 C3`, the start of the last `Mov`; the second interrupt
instruction is at offset 38. -/
theorem second_interrupt_not_at_32 :
    IsI32 0 ∧
      ((mainInstructionStream 0 (toI32 (strlen kString))).drop 32).take 2 = [0xC7, 0xC3] ∧
      ((mainInstructionStream 0 (toI32 (strlen kString))).drop 38).take 2 = [0xCD, 0x80] ∧
      ((mainInstructionStream 0 (toI32 (strlen kString))).drop 32).take 2 ≠ [0xCD, 0x80] := by
  decide

/-- C15, amended: for every `i32` address `a`, the stream built by `main` ends
with the 14 bytes `C7 C0 01 00 00 00 C7 C3 00 00 00 00 CD 80`, the encoding of
load 1 into `Eax`, load 0 into `Ebx`, interrupt `0x80`; the two interrupt
instructions are located at byte offsets 24 and 38. -/
theorem mainInstructionStream_tail (a : Int) (ha : IsI32 a) :
    (mainInstructionStream a (toI32 (strlen kString))).drop
          ((mainInstructionStream a (toI32 (strlen kString))).length - 14) =
        [0xC7, 0xC0, 0x01, 0x00, 0x00, 0x00, 0xC7, 0xC3, 0x00, 0x00, 0x00, 0x00, 0xCD, 0x80] ∧
      runEmissions [] [Emission.mov 1 Register.Eax, Emission.mov 0 Register.Ebx,
          Emission.int 0x80] =
        [0xC7, 0xC0, 0x01, 0x00, 0x00, 0x00, 0xC7, 0xC3, 0x00, 0x00, 0x00, 0x00, 0xCD, 0x80] ∧
      ((mainInstructionStream a (toI32 (strlen kString))).drop 24).take 2 = [0xCD, 0x80] ∧
      ((mainInstructionStream a (toI32 (strlen kString))).drop 38).take 2 = [0xCD, 0x80] := by
  have ha0 := ha
  rw [mainInstructionStream_length, strlen_kString, mainInstructionStream_eq]
  have h14 : immediateBytes 14 = [14, 0, 0, 0] := by decide
  rw [h14]
  unfold immediateBytes
  refine ⟨rfl, by decide, rfl, rfl⟩

/-- Witness of C15 amended: a negative address pattern. -/
theorem mainInstructionStream_tail_witness :
    IsI32 (-1073745920) ∧
      ((mainInstructionStream (-1073745920) (toI32 (strlen kString))).drop 38).take 2 =
        [0xCD, 0x80] :=
  ⟨by decide, (mainInstructionStream_tail (-1073745920) (by decide)).2.2.2⟩

/-- C16: the status `main` returns on allocation failure is `-1`, `255` as an
8-bit exit status; it is non-zero and differs from the exit code `0` that the
generated program loads into `Ebx` before its final interrupt, and from the
sentinel `-500` returned after the invocation, `12` as an 8-bit exit status. -/
theorem main_failure_status_distinct (envF envR : Environment) (memory : Nat)
    (hF : envF.mmapResult = none) (hR : envR.mmapResult = some memory)
    (hret : envR.callReturns = true) :
    (Program.main envF).status = some (-1) ∧
      (Program.main envR).status = some (-500) ∧
      (Program.main envF).status.map exitStatus8 = some 255 ∧
      (Program.main envR).status.map exitStatus8 = some 12 ∧
      (mainInstructionStream envR.address (toI32 (strlen kString))).drop 32 =
        runEmissions [] [Emission.mov 0 Register.Ebx, Emission.int 0x80] ∧
      (Program.main envF).status ≠ some 0 ∧
      (Program.main envF).status.map exitStatus8 ≠ some (exitStatus8 0) ∧
      (Program.main envF).status ≠ (Program.main envR).status ∧
      (Program.main envF).status.map exitStatus8 ≠
        (Program.main envR).status.map exitStatus8 := by
  have h1 : (Program.main envF).status = some (-1) := by
    unfold Program.main
    rw [hF]
  have h2 : (Program.main envR).status = some (-500) := by
    unfold Program.main
    rw [hR, hret]
    rfl
  have h3 : (mainInstructionStream envR.address (toI32 (strlen kString))).drop 32 =
      runEmissions [] [Emission.mov 0 Register.Ebx, Emission.int 0x80] := by
    rw [strlen_kString, mainInstructionStream_eq]
    have h14 : immediateBytes 14 = [14, 0, 0, 0] := by decide
    have hr : runEmissions [] [Emission.mov 0 Register.Ebx, Emission.int 0x80] =
        [0xC7, 0xC3, 0, 0, 0, 0, 0xCD, 0x80] := by decide
    rw [h14, hr]
    unfold immediateBytes
    rfl
  rw [h1, h2]
  exact ⟨rfl, rfl, by decide, by decide, h3, by decide, by decide, by decide, by decide⟩

/-- Witness of C16: a failed mapping, and a successful one whose invoked
instructions return. -/
theorem main_failure_status_distinct_witness :
    (Environment.mk 0 none 12 false).mmapResult = none ∧
      (Environment.mk 0 (some 4096) 0 true).mmapResult = some 4096 ∧
      (Environment.mk 0 (some 4096) 0 true).callReturns = true ∧
      (Program.main (Environment.mk 0 none 12 false)).status = some (-1) ∧
      (Program.main (Environment.mk 0 (some 4096) 0 true)).status = some (-500) :=
  ⟨rfl, rfl, rfl,
    (main_failure_status_distinct (Environment.mk 0 none 12 false)
      (Environment.mk 0 (some 4096) 0 true) 4096 rfl rfl rfl).1,
    (main_failure_status_distinct (Environment.mk 0 none 12 false)
      (Environment.mk 0 (some 4096) 0 true) 4096 rfl rfl rfl).2.1⟩

/-- C17: with a shift by 32 bits or more and a field value that does not fit
its width as errors, `Mov` reaches no error branch for any `i32` value and any
register. Each `ExtractByte` call has an index in `0..3` and a shift amount
among `0, 8, 16, 24`; the `MakeModRmByte` call passes the opcode extension `0`
and a register code below `8`, so the unmasked packing of the code equals the
masked formula. -/
theorem MovChecked_never_fails (s : List Nat) (v : Int) (r : Register) (hv : IsI32 v) :
    emit_x86_instruction.MovChecked s v r = some (emit_x86_instruction.Mov s v r) ∧
      (∀ i, i < 4 → (i * 8 % 4294967296 = 0 ∨ i * 8 % 4294967296 = 8 ∨
          i * 8 % 4294967296 = 16 ∨ i * 8 % 4294967296 = 24) ∧
        ExtractByteChecked v i = some (ExtractByte v i)) ∧
      ((0b000 : Nat) < 8 ∧ EnumToByte r < 8) ∧
      MakeModRmByteChecked Mode.Register 0b000 (EnumToByte r) =
        some (MakeModRmByte Mode.Register 0b000 (EnumToByte r)) ∧
      MakeModRmByte Mode.Register 0b000 (EnumToByte r) =
        maskedAddressingByte Mode.Register 0b000 (EnumToByte r) := by
  have hv0 := hv
  have hr := EnumToByte_register_lt r
  have hm := MakeModRmByteChecked_eq Mode.Register 0b000 (EnumToByte r) (by decide) hr
  refine ⟨?_, ?_, ⟨by decide, hr⟩, hm, ?_⟩
  · unfold emit_x86_instruction.MovChecked emit_x86_instruction.Mov
    rw [hm, ExtractByteChecked_eq v 0 (by decide), ExtractByteChecked_eq v 1 (by decide),
      ExtractByteChecked_eq v 2 (by decide), ExtractByteChecked_eq v 3 (by decide)]
    rfl
  · intro i hi
    refine ⟨?_, ExtractByteChecked_eq v i hi⟩
    interval_cases i <;> decide
  · cases r <;> decide

/-- Witness of C17: the most negative `i32` value moved to `Ebx`. -/
theorem MovChecked_never_fails_witness :
    IsI32 (-2147483648) ∧
      emit_x86_instruction.MovChecked [] (-2147483648) Register.Ebx =
        some [0xC7, 0xC3, 0x00, 0x00, 0x00, 0x80] :=
  ⟨by decide,
    (MovChecked_never_fails [] (-2147483648) Register.Ebx (by decide)).1.trans (by decide)⟩

/-! ## Unique decodability -/

theorem immediateBytes_injective (v w : Int) (hv : IsI32 v) (hw : IsI32 w)
    (h : immediateBytes v = immediateBytes w) : v = w := by
  simp only [immediateBytes, List.cons.injEq, and_true] at h
  obtain ⟨h0, h1, h2, h3⟩ := h
  have e : bits32 v = bits32 w := by
    rw [← reassemble_ExtractByte v, ← reassemble_ExtractByte w, h0, h1, h2, h3]
  calc v = toI32 (bits32 v) := (toI32_bits32 v hv).symm
    _ = toI32 (bits32 w) := by rw [e]
    _ = w := toI32_bits32 w hw

theorem modRm_register_injective (r r2 : Register)
    (h : MakeModRmByte Mode.Register 0b000 (EnumToByte r) =
      MakeModRmByte Mode.Register 0b000 (EnumToByte r2)) : r = r2 := by
  cases r <;> cases r2 <;> first | rfl | exact absurd h (by decide)

theorem Emission.run_nil_cancel (c d : Emission) (hc : c.WellTyped) (hd : d.WellTyped)
    (t u : List Nat) (h : c.run [] ++ t = d.run [] ++ u) : c = d ∧ t = u := by
  cases c with
  | mov v r =>
    cases d with
    | mov w r2 =>
      simp only [Emission.run, Mov_append, List.nil_append, List.cons_append,
        List.cons.injEq, true_and] at h
      obtain ⟨hm, hb⟩ := h
      have hl : (immediateBytes v).length = (immediateBytes w).length := rfl
      obtain ⟨hb1, hb2⟩ := List.append_inj hb hl
      have hvw := immediateBytes_injective v w hc hd hb1
      have hr := modRm_register_injective r r2 hm
      rw [hvw, hr]
      exact ⟨rfl, hb2⟩
    | int m =>
      simp [Emission.run, Mov_append, Int_append] at h
  | int n =>
    cases d with
    | mov w r2 =>
      simp [Emission.run, Mov_append, Int_append] at h
    | int m =>
      simp only [Emission.run, Int_append, List.nil_append, List.cons_append,
        List.cons.injEq, true_and] at h
      obtain ⟨hn, ht⟩ := h
      rw [hn]
      exact ⟨rfl, ht⟩

theorem Emission.run_nil_ne_nil (c : Emission) (t : List Nat) : c.run [] ++ t ≠ [] := by
  intro h
  have hl := congrArg List.length h
  rw [List.length_append, Emission.run_nil_length] at hl
  cases c <;> simp [Emission.size] at hl

theorem flatten_run_injective (p q : List Emission) (hp : ∀ c ∈ p, c.WellTyped)
    (hq : ∀ c ∈ q, c.WellTyped)
    (h : (p.map (Emission.run [])).flatten = (q.map (Emission.run [])).flatten) : p = q := by
  induction p generalizing q with
  | nil =>
    cases q with
    | nil => rfl
    | cons d ds =>
      simp only [List.map_nil, List.flatten_nil, List.map_cons, List.flatten_cons] at h
      exact absurd h.symm (Emission.run_nil_ne_nil d _)
  | cons c cs ih =>
    cases q with
    | nil =>
      simp only [List.map_nil, List.flatten_nil, List.map_cons, List.flatten_cons] at h
      exact absurd h (Emission.run_nil_ne_nil c _)
    | cons d ds =>
      simp only [List.map_cons, List.flatten_cons] at h
      have hc := hp c (List.mem_cons_self c cs)
      have hd := hq d (List.mem_cons_self d ds)
      obtain ⟨hcd, hrest⟩ := Emission.run_nil_cancel c d hc hd _ _ h
      have hcs := ih ds (fun x hx => hp x (List.mem_cons_of_mem c hx))
        (fun x hx => hq x (List.mem_cons_of_mem d hx)) hrest
      rw [hcd, hcs]

/-- C13: the instruction encoding is uniquely decodable. For two finite
sequences `p` and `q` of instructions (each a `Mov` of an `i32` value to a
register, or an `Int` of a `u8` vector), equal encodings from the empty stream
force `p = q`; in particular `Mov` is injective in its value and register, and
`Int` is injective in its vector. -/
theorem encoding_uniquely_decodable (p q : List Emission) (v w : Int) (r r2 : Register)
    (n m : Nat) (hp : ∀ c ∈ p, c.WellTyped) (hq : ∀ c ∈ q, c.WellTyped)
    (hv : IsI32 v) (hw : IsI32 w) (hn : IsU8 n) (hm : IsU8 m) :
    (runEmissions [] p = runEmissions [] q → p = q) ∧
      (emit_x86_instruction.Mov [] v r = emit_x86_instruction.Mov [] w r2 → v = w ∧ r = r2) ∧
      (emit_x86_instruction.Int [] n = emit_x86_instruction.Int [] m → n = m) := by
  refine ⟨?_, ?_, ?_⟩
  · intro h
    rw [runEmissions_eq, runEmissions_eq, List.nil_append, List.nil_append] at h
    exact flatten_run_injective p q hp hq h
  · intro h
    have h2 : (Emission.mov v r).run [] ++ [] = (Emission.mov w r2).run [] ++ [] := by
      rw [List.append_nil, List.append_nil]
      exact h
    have h3 := (Emission.run_nil_cancel (Emission.mov v r) (Emission.mov w r2) hv hw [] [] h2).1
    injection h3 with h4 h5
    exact ⟨h4, h5⟩
  · intro h
    have h2 : (Emission.int n).run [] ++ [] = (Emission.int m).run [] ++ [] := by
      rw [List.append_nil, List.append_nil]
      exact h
    have h3 := (Emission.run_nil_cancel (Emission.int n) (Emission.int m) hn hm [] [] h2).1
    injection h3

/-- Witness of C13: the call sequence of `main` against itself, and two
concrete instructions. -/
theorem encoding_uniquely_decodable_witness :
    (∀ c ∈ [Emission.mov 4 Register.Eax, Emission.int 0x80], c.WellTyped) ∧
      IsI32 (-1) ∧ IsU8 0x80 ∧
      (runEmissions [] [Emission.mov 4 Register.Eax, Emission.int 0x80] =
          runEmissions [] [Emission.mov 4 Register.Eax, Emission.int 0x80] →
        [Emission.mov 4 Register.Eax, Emission.int 0x80] =
          [Emission.mov 4 Register.Eax, Emission.int 0x80]) :=
  ⟨by decide, by decide, by decide,
    (encoding_uniquely_decodable [Emission.mov 4 Register.Eax, Emission.int 0x80]
      [Emission.mov 4 Register.Eax, Emission.int 0x80] (-1) (-1) Register.Eax Register.Eax
      0x80 0x80 (by decide) (by decide) (by decide) (by decide) (by decide) (by decide)).1⟩
